import Mathlib

set_option maxRecDepth 8000

namespace ZestyDispatcher

/-!
Shallow embedding of `src/unnamed/part_000` of zesty-clawd/zesty-dispatcher.

JS strings are modelled as Lean `String` over their characters; ASCII is
assumed for case conversion and whitespace classes (all inputs appearing in
the claims are ASCII).  The two external effects — the semantic collaborator
(`api.runtime.llm.generateText`) and the file system (`fs.open`/`read`) —
are modelled as oracle parameters.  Line numbers in comments refer to
`src/unnamed/part_000`.
-/

/-- Whitespace as matched by the JS regex class `\s` (ASCII range; the
Unicode space characters are irrelevant to the claims). -/
def isWs (c : Char) : Bool :=
  c == ' ' || c == '\t' || c == '\n' || c == '\r' || c == '\x0b' || c == '\x0c'

def lowerL (l : List Char) : List Char := l.map Char.toLower

/-- JS `String.prototype.toLowerCase` (ASCII). -/
def lowerS (s : String) : String := String.mk (lowerL s.toList)

def trimL (l : List Char) : List Char :=
  ((l.dropWhile (fun c => isWs c)).reverse.dropWhile (fun c => isWs c)).reverse

/-- JS `String.prototype.trim`. -/
def trimS (s : String) : String := String.mk (trimL s.toList)

def dropRightL (l : List Char) (n : Nat) : List Char := l.take (l.length - n)

/-- JS `s.slice(0, -1)` on a string. -/
def dropRightS (s : String) (n : Nat) : String := String.mk (dropRightL s.toList n)

def startsWithS (s pre : String) : Bool := pre.toList.isPrefixOf s.toList

def endsWithS (s post : String) : Bool := post.toList.isSuffixOf s.toList

def intercalateS (sep : String) : List String → String
  | [] => ""
  | [s] => s
  | s :: rest => s ++ sep ++ intercalateS sep rest

/-- JS regex class `\w`, i.e. `[A-Za-z0-9_]`. -/
def isWordChar (c : Char) : Bool :=
  ('a' ≤ c && c ≤ 'z') || ('A' ≤ c && c ≤ 'Z') || ('0' ≤ c && c ≤ '9') || c == '_'

def wordStart : List Char → Bool
  | [] => false
  | c :: _ => isWordChar c

def wordEnd (l : List Char) : Bool := wordStart l.reverse

/-- JS regex `\b` at offset `i` of `t`: the word-ness of the characters on
the two sides differs (an absent character counts as non-word). -/
def boundaryAt (t : List Char) (i : Nat) : Bool :=
  wordEnd (t.take i) != wordStart (t.drop i)

/-- Match of the whole-word pattern at offset `i`: the literal (lowered)
pattern `p` occurs at `i` of `t` case-insensitively, with a word boundary on
each side. -/
def wwAt (p t : List Char) (i : Nat) : Bool :=
  decide (((lowerL t).drop i).take p.length = p) && boundaryAt t i &&
    boundaryAt t (i + p.length)

/-- Embedding of
`new RegExp("\\b" + pat.replace(/[.*+?^$\x7b\x7d()|[\]\\]/g, "\\$&") + "\\b", "i").test(text)`
(lines 110-111 and 135-136).  The replace escapes every regex metacharacter,
so the pattern matches only the literal `pat`; the test succeeds iff `pat`
occurs somewhere in `text`, case-insensitively, with `\b` holding on both
sides. -/
def wholeWordTest (pat text : String) : Bool :=
  (List.range (text.toList.length + 1)).any (wwAt (lowerL pat.toList) text.toList)

/-- Maximal runs of non-whitespace characters (left to right, accumulator
reversed).  `q.split(/\s+/)` (line 133) differs from this only by
possibly-empty boundary tokens, which the `length > 2` filter right after it
discards either way. -/
def runsGo : List Char → List Char → List (List Char)
  | [], acc => if acc.isEmpty then [] else [acc.reverse]
  | c :: cs, acc =>
    if isWs c then (if acc.isEmpty then runsGo cs [] else acc.reverse :: runsGo cs [])
    else runsGo cs (c :: acc)

/-- Embedding of `qLower.split(/\s+/).filter(w => w.length > 2)` (line 133). -/
def keywordsOf (qLower : String) : List String :=
  ((runsGo qLower.toList []).filter (fun w => 2 < w.length)).map String.mk

/-- Embedding of `keywords.filter(k => new RegExp(..).test(desc))` (lines 134-137). -/
def descKeywords (qLower desc : String) : List String :=
  (keywordsOf qLower).filter (fun k => wholeWordTest k desc)

/-- Lines 139-141: the description keyword-density contribution; nothing is
added when no keyword matched. -/
def descContrib (qLower desc : String) : Nat :=
  if (descKeywords qLower desc).isEmpty then 0
  else min 30 ((descKeywords qLower desc).length * 10)

/-- Line 142: the diagnostic reason recorded with the description signal. -/
def descReasons (qLower desc : String) : List String :=
  if (descKeywords qLower desc).isEmpty then []
  else ["Desc Keywords: " ++ intercalateS ", " (descKeywords qLower desc) ++ " (+" ++
        toString (min 30 ((descKeywords qLower desc).length * 10)) ++ ")"]

/-- Lines 110-114: the name-match contribution. -/
def nameContrib (qLower name : String) : Nat :=
  if wholeWordTest name qLower then 60 else 0

structure SkillMetadata where
  name : String
  description : String
deriving DecidableEq, Repr

def dashes : List Char := ['-', '-', '-']

/-- First index at which `needle` occurs as a sublist of `hay`. -/
def findSub (needle : List Char) : List Char → Option Nat
  | [] => if needle.isPrefixOf ([] : List Char) then some 0 else none
  | c :: t =>
    if needle.isPrefixOf (c :: t) then some 0
    else (findSub needle t).map (fun i => i + 1)

/-- Body captured by the first match of the regex on line 21,
`/---\s*([\s\S]*?)\s*---/`: the leftmost match begins at the first `---`, the
lazy group ends before the next `---`, and the two greedy `\s*` strip the
surrounding whitespace of the captured text. -/
def frontmatterBody (content : String) : Option String :=
  match findSub dashes content.toList with
  | none => none
  | some i =>
    match findSub dashes (content.toList.drop (i + 3)) with
    | none => none
    | some j => some (String.mk (trimL ((content.toList.drop (i + 3)).take j)))

/-- Embedding of `split(/\r?\n/)` (line 24): a lone `\r` not followed by `\n` is not a
separator. -/
def splitLines : List Char → List (List Char)
  | [] => [[]]
  | '\r' :: '\n' :: cs => [] :: splitLines cs
  | '\n' :: cs => [] :: splitLines cs
  | c :: cs =>
    match splitLines cs with
    | [] => [[c]]
    | l :: ls => (c :: l) :: ls

/-- JS `v.startsWith(q) && v.endsWith(q)` for a one-character quote `q`
(line 35); a single-character string satisfies both. -/
def isQuoteWrapped (l : List Char) (q : Char) : Bool :=
  match l with
  | [] => false
  | c :: _ => c == q && l.getLast? == some q

/-- Lines 26-41: process one frontmatter line (`key: value`, with optional
one-layer quote stripping; later lines overwrite earlier ones). -/
def applyMetaLine (meta : SkillMetadata) (line : List Char) : SkillMetadata :=
  if (trimL line).isEmpty || trimL line = dashes then meta
  else
    match findSub [':'] (trimL line) with
    | none => meta
    | some ci =>
      let key := lowerS (String.mk (trimL ((trimL line).take ci)))
      let v0 := String.mk (trimL ((trimL line).drop (ci + 1)))
      let value :=
        if isQuoteWrapped v0.toList '"' || isQuoteWrapped v0.toList (Char.ofNat 39) then
          trimS (dropRightS (v0.drop 1) 1)
        else v0
      let m1 := if key = "name" then { meta with name := value } else meta
      if key = "description" then { m1 with description := value } else m1

/-- Lines 18-45: `parseSkillMetadata`. -/
def parseSkillMetadata (content : String) : SkillMetadata :=
  match frontmatterBody content with
  | none => { name := "", description := "" }
  | some body => (splitLines body.toList).foldl applyMetaLine { name := "", description := "" }

/-- Lines 50-58: `isExempt` — wildcard patterns (trailing `*`) match by
prefix, others by exact equality. -/
def isExempt (skillName : String) (patterns : List String) : Bool :=
  patterns.any (fun pattern =>
    if endsWithS pattern "*" then startsWithS skillName (dropRightS pattern 1)
    else skillName == pattern)

/-- Line 75: the default exemption patterns when configuration is absent. -/
def defaultExemptions : List String := ["zesty-*", "qmd"]

inductive JVal where
  | jnull
  | jbool (b : Bool)
  | jnum
  | jstr (s : String)
  | jarr (elems : List JVal)
  | jobj (fields : List (String × JVal))

def isJsonWs (c : Char) : Bool := c == ' ' || c == '\t' || c == '\n' || c == '\r'

def skipWs (cs : List Char) : List Char := cs.dropWhile (fun c => isJsonWs c)

def isDigit (c : Char) : Bool := '0' ≤ c && c ≤ '9'

def hexVal (c : Char) : Option Nat :=
  if '0' ≤ c && c ≤ '9' then some (c.toNat - 48)
  else if 'a' ≤ c && c ≤ 'f' then some (c.toNat - 87)
  else if 'A' ≤ c && c ≤ 'F' then some (c.toNat - 55)
  else none

/-- Strict JSON string body, after the opening quote. -/
def strBody : List Char → List Char → Option (String × List Char)
  | [], _ => none
  | '"' :: r, acc => some (String.mk acc.reverse, r)
  | '\\' :: e :: r, acc =>
    match e with
    | '"' => strBody r ('"' :: acc)
    | '\\' => strBody r ('\\' :: acc)
    | '/' => strBody r ('/' :: acc)
    | 'b' => strBody r ('\x08' :: acc)
    | 'f' => strBody r ('\x0c' :: acc)
    | 'n' => strBody r ('\n' :: acc)
    | 'r' => strBody r ('\r' :: acc)
    | 't' => strBody r ('\t' :: acc)
    | 'u' =>
      match r with
      | h1 :: h2 :: h3 :: h4 :: r2 =>
        match hexVal h1, hexVal h2, hexVal h3, hexVal h4 with
        | some a, some b, some c, some d =>
          strBody r2 (Char.ofNat ((((a * 16 + b) * 16 + c) * 16) + d) :: acc)
        | _, _, _, _ => none
      | _ => none
    | _ => none
  | c :: r, acc => if c.toNat < 32 then none else strBody r (c :: acc)

def digits1 : List Char → Option (List Char)
  | c :: r => if isDigit c then some (r.dropWhile (fun d => isDigit d)) else none
  | [] => none

def intTail : List Char → Option (List Char)
  | '0' :: r => some r
  | c :: r => if isDigit c then some (r.dropWhile (fun d => isDigit d)) else none
  | [] => none

def fracTail : List Char → Option (List Char)
  | '.' :: r => digits1 r
  | r => some r

def expTail : List Char → Option (List Char)
  | 'e' :: '+' :: r => digits1 r
  | 'e' :: '-' :: r => digits1 r
  | 'e' :: r => digits1 r
  | 'E' :: '+' :: r => digits1 r
  | 'E' :: '-' :: r => digits1 r
  | 'E' :: r => digits1 r
  | r => some r

/-- Strict JSON number tail. -/
def numTail (cs : List Char) : Option (List Char) := do
  let r1 ← intTail (match cs with | '-' :: r => r | r => r)
  let r2 ← fracTail r1
  expTail r2

mutual

def parseVal : Nat → List Char → Option (JVal × List Char)
  | 0, _ => none
  | Nat.succ fuel, cs =>
    match cs with
    | 'n' :: 'u' :: 'l' :: 'l' :: r => some (JVal.jnull, r)
    | 't' :: 'r' :: 'u' :: 'e' :: r => some (JVal.jbool true, r)
    | 'f' :: 'a' :: 'l' :: 's' :: 'e' :: r => some (JVal.jbool false, r)
    | '"' :: r => (strBody r []).map (fun p => (JVal.jstr p.1, p.2))
    | '[' :: r =>
      match skipWs r with
      | ']' :: r2 => some (JVal.jarr [], r2)
      | r2 => (parseItems fuel r2).map (fun p => (JVal.jarr p.1, p.2))
    | '{' :: r =>
      match skipWs r with
      | '}' :: r2 => some (JVal.jobj [], r2)
      | r2 => (parseFields fuel r2).map (fun p => (JVal.jobj p.1, p.2))
    | c :: r =>
      if c == '-' || isDigit c then (numTail (c :: r)).map (fun rest => (JVal.jnum, rest))
      else none
    | [] => none

def parseItems : Nat → List Char → Option (List JVal × List Char)
  | 0, _ => none
  | Nat.succ fuel, cs =>
    match parseVal fuel cs with
    | none => none
    | some (v, r) =>
      match skipWs r with
      | ',' :: r2 => (parseItems fuel (skipWs r2)).map (fun p => (v :: p.1, p.2))
      | ']' :: r2 => some ([v], r2)
      | _ => none

def parseFields : Nat → List Char → Option (List (String × JVal) × List Char)
  | 0, _ => none
  | Nat.succ fuel, cs =>
    match cs with
    | '"' :: r =>
      match strBody r [] with
      | none => none
      | some (k, r1) =>
        match skipWs r1 with
        | ':' :: r2 =>
          match parseVal fuel (skipWs r2) with
          | none => none
          | some (v, r3) =>
            match skipWs r3 with
            | ',' :: r4 =>
              match skipWs r4 with
              | r5 => (parseFields fuel r5).map (fun p => ((k, v) :: p.1, p.2))
            | '}' :: r4 => some ([(k, v)], r4)
            | _ => none
        | _ => none
    | _ => none

end

/-- Strict `JSON.parse` on the full string, restricted to the observable outcome:
success requires the whole string to be valid JSON. -/
def parseJsonTop (s : String) : Option JVal :=
  match parseVal (2 * s.toList.length + 2) (skipWs s.toList) with
  | some (v, r) => if (skipWs r).isEmpty then some v else none
  | none => none

def stringElems : List JVal → List String
  | [] => []
  | JVal.jstr s :: rest => s :: stringElems rest
  | _ :: rest => stringElems rest

/-- The parsed array as observed by line 117, `llmRecommended.includes(skillName)`:
only the string elements of the array can ever equal a candidate name, so the
array is modelled by its list of string elements.  A string matched by
`/\[.*\]/s` starts with `[`, so a successful `JSON.parse` necessarily yields
an array. -/
def parseJsonStringArr (s : String) : Option (List String) :=
  match parseJsonTop s with
  | some (JVal.jarr xs) => some (stringElems xs)
  | _ => none

def idxOfChar (c : Char) (cs : List Char) : Option Nat := findSub [c] cs

def lastIdxOfChar (c : Char) (cs : List Char) : Option Nat :=
  (idxOfChar c cs.reverse).map (fun i => cs.length - 1 - i)

/-- First match of `/\[.*\]/s` (line 99): from the first `[` through the last
`]`, provided the latter comes after the former. -/
def extractArray (t : String) : Option String :=
  match idxOfChar '[' t.toList, lastIdxOfChar ']' t.toList with
  | some i, some j =>
    if i < j then some (String.mk ((t.toList.drop i).take (j + 1 - i))) else none
  | _, _ => none

/-- Oracle for the semantic collaborator: `none` models an absent
`api.runtime.llm.generateText` capability; `some f` models the configured
call, `f prompt` being either the reply text
(`response.text || response.content || ""`, line 98) or a thrown error. -/
abbrev LlmOracle : Type := Option (String → Except String String)

/-- Oracle for `fs.open`/`handle.read` (lines 126-130): `none` models a
failed open/read (the surrounding try swallows it), `some c` the decoded
buffer contents handed to `parseSkillMetadata`. -/
abbrev FsOracle : Type := String → Option String

def jsonEscapeChar (c : Char) : List Char :=
  if c == '"' || c == '\\' then ['\\', c]
  else if c == '\n' then ['\\', 'n']
  else if c == '\r' then ['\\', 'r']
  else if c == '\t' then ['\\', 't']
  else [c]

/-- Embedding of `JSON.stringify` of a string array (line 92); exact escaping is
immaterial, since the prompt is only ever consumed by the universally
quantified collaborator oracle. -/
def jsonShowStrings (l : List String) : String :=
  "[" ++ intercalateS ","
    (l.map (fun s => "\"" ++ String.mk ((s.toList.map jsonEscapeChar).flatten) ++ "\"")) ++ "]"

/-- Line 92: the batched prompt. -/
def mkPrompt (query : String) (nonExempt : List String) : String :=
  "Select highly relevant skills for: \"" ++ query ++ "\" from: " ++
    jsonShowStrings nonExempt ++ ". Return JSON array only."

/-- Lines 87-102: the batched semantic recommendation.  Every failure path —
no capability, the call throwing, no bracketed substring in the reply,
invalid JSON — leaves `llmRecommended` as `[]`. -/
def llmRecommendedOf (llm : LlmOracle) (query : String) (nonExempt : List String) :
    List String :=
  if nonExempt.isEmpty then []
  else
    match llm with
    | none => []
    | some f =>
      match f (mkPrompt query nonExempt) with
      | Except.error _ => []
      | Except.ok text =>
        match extractArray text with
        | none => []
        | some js =>
          match parseJsonStringArr js with
          | none => []
          | some arr => arr

structure ScoreEntry where
  score : Nat
  reasons : List String
deriving DecidableEq, Repr

structure SelResult where
  selected : List String
  scores : List (String × Nat)
  breakdown : List (String × List String)
deriving DecidableEq, Repr

/-- Line 69: `Array.from(skillFiles.keys())` (the map is an association list
in insertion order). -/
def candidatesOf (skillFiles : List (String × String)) : List String :=
  skillFiles.map Prod.fst

/-- Lines 75-76. -/
def exemptionsOf (cfgEx : Option (List String)) (skillFiles : List (String × String)) :
    List String :=
  (candidatesOf skillFiles).filter (fun s => isExempt s (cfgEx.getD defaultExemptions))

/-- Line 84. -/
def nonExemptOf (cfgEx : Option (List String)) (skillFiles : List (String × String)) :
    List String :=
  (candidatesOf skillFiles).filter (fun s => !((exemptionsOf cfgEx skillFiles).contains s))

/-- Lines 105-148: one iteration of the scoring loop for a non-exempt
candidate. -/
def scoreCandidate (llmRec : List String) (fsO : FsOracle) (qLower : String)
    (skillFiles : List (String × String)) (name : String) : ScoreEntry :=
  { score := nameContrib qLower name +
      (if llmRec.contains name then 60 else 0) +
      (match List.lookup name skillFiles with
       | none => 0
       | some p =>
         if p = "" then 0
         else
           match fsO p with
           | none => 0
           | some content => descContrib qLower (lowerS (parseSkillMetadata content).description))
  , reasons := (if wholeWordTest name qLower then ["Name Match (+60)"] else []) ++
      (if llmRec.contains name then ["LLM Recommended (+60)"] else []) ++
      (match List.lookup name skillFiles with
       | none => []
       | some p =>
         if p = "" then []
         else
           match fsO p with
           | none => []
           | some content => descReasons qLower (lowerS (parseSkillMetadata content).description)) }

/-- The scoring loop, as the list of `(candidate, entry)` pairs in iteration
order. -/
def scoredOf (cfgEx : Option (List String)) (llm : LlmOracle) (fsO : FsOracle)
    (query : String) (skillFiles : List (String × String)) : List (String × ScoreEntry) :=
  (nonExemptOf cfgEx skillFiles).map (fun n =>
    (n, scoreCandidate (llmRecommendedOf llm query (nonExemptOf cfgEx skillFiles)) fsO
          (lowerS query) skillFiles n))

/-- Lines 63-157: `selectRelevantSkills`.  The JS loop's pushes into
`selected`, `scores` and `breakdown` are split into the three parallel lists;
iteration order and per-candidate data are unchanged. -/
def selectRelevantSkills (cfgEx : Option (List String)) (llm : LlmOracle) (fsO : FsOracle)
    (query : String) (skillFiles : List (String × String)) : SelResult :=
  { selected := exemptionsOf cfgEx skillFiles ++
      ((scoredOf cfgEx llm fsO query skillFiles).filter
        (fun p => decide (60 ≤ p.2.score))).map Prod.fst
  , scores := (exemptionsOf cfgEx skillFiles).map (fun s => (s, 999)) ++
      (scoredOf cfgEx llm fsO query skillFiles).map (fun p => (p.1, p.2.score))
  , breakdown := (exemptionsOf cfgEx skillFiles).map (fun s => (s, ["Exemption"])) ++
      (scoredOf cfgEx llm fsO query skillFiles).map (fun p => (p.1, p.2.reasons)) }

structure Turn where
  role : String
  content : String
deriving DecidableEq, Repr

/-- A host record: a bare path string, or an object with a `path` and
optional `content` (the spec's data model for records). -/
inductive JRecord where
  | str (s : String)
  | obj (path : String) (content : Option String)
deriving DecidableEq, Repr

/-- Line 176: `file.path || (typeof file === "string" ? file : "")`; for an
object with an empty (falsy) `path` both branches yield `""`. -/
def getPath1 : JRecord → String
  | JRecord.str s => s
  | JRecord.obj p _ => p

/-- Line 199: `file.path || file`.  For an object whose `path` is falsy the
fallback is the object itself, and the subsequent `.match` call throws a
TypeError; `Except.error` models that throw. -/
def getPath2 : JRecord → Except Unit String
  | JRecord.str s => Except.ok s
  | JRecord.obj p _ => if p = "" then Except.error () else Except.ok p

def isSep (c : Char) : Bool := c == '/' || c == '\\'

def takeNonSep : List Char → List Char
  | [] => []
  | c :: cs => if isSep c then [] else c :: takeNonSep cs

def skillsWord : List Char := ['s', 'k', 'i', 'l', 'l', 's']

/-- Attempt of `/[\\/]skills[\\/]([^\\/]+)/` at the head of `cs`, returning
the capture group. -/
def skillsMatchAt (cs : List Char) : Option String :=
  match cs with
  | c :: rest =>
    if isSep c then
      if skillsWord.isPrefixOf rest then
        match rest.drop 6 with
        | d :: rest2 =>
          if isSep d then
            if (takeNonSep rest2).isEmpty then none else some (String.mk (takeNonSep rest2))
          else none
        | [] => none
      else none
    else none
  | [] => none

/-- Embedding of `filePath.match(/[\\/]skills[\\/]([^\\/]+)/)` (lines 177, 191, 200):
leftmost match, capture group 1. -/
def skillNameFrom : List Char → Option String
  | [] => none
  | c :: cs =>
    match skillsMatchAt (c :: cs) with
    | some n => some n
    | none => skillNameFrom cs

def skillNameOf (path : String) : Option String := skillNameFrom path.toList

/-- Semantics of `Map.prototype.set`: overwrite the value if the key is present (keeping
its position), else append. -/
def insertSkill (m : List (String × String)) (n p : String) : List (String × String) :=
  if m.any (fun q => q.1 == n) then m.map (fun q => if q.1 == n then (n, p) else q)
  else m ++ [(n, p)]

/-- Lines 175-186: one iteration of the classification loop.  Only records
whose path ends in `SKILL.md` enter the skill map; non-matching records are
kept as non-skill files; matching records without `SKILL.md` fall through
both. -/
def scanStep (acc : List (String × String) × List JRecord) (f : JRecord) :
    List (String × String) × List JRecord :=
  match skillNameOf (getPath1 f) with
  | some n =>
    if endsWithS (getPath1 f) "SKILL.md" then (insertSkill acc.1 n (getPath1 f), acc.2)
    else acc
  | none => (acc.1, acc.2 ++ [f])

def scanGo (acc : List (String × String) × List JRecord) :
    List JRecord → List (String × String) × List JRecord
  | [] => acc
  | f :: fs => scanGo (scanStep acc f) fs

/-- Lines 172-186: `skillPaths` (first component) and `nonSkillFiles`
(second component). -/
def scanFiles (files : List JRecord) : List (String × String) × List JRecord :=
  scanGo ([], []) files

/-- Lines 168-169: the query is the content of the most recent `user` turn,
or `""` when none exists. -/
def extractQuery (sessionEntry : List Turn) : String :=
  match sessionEntry.reverse.find? (fun m => m.role == "user") with
  | some m => m.content
  | none => ""

/-- Lines 197-204: the rebuild loop collecting the retained skill records;
propagates the TypeError thrown by `filePath.match` when a record is an
object with a falsy `path`. -/
def keptSkillFiles : List JRecord → List String → Except Unit (List JRecord)
  | [], _ => Except.ok []
  | f :: fs, sel =>
    match getPath2 f with
    | Except.error e => Except.error e
    | Except.ok p =>
      match skillNameOf p with
      | some n =>
        if sel.contains n then (keptSkillFiles fs sel).map (fun l => f :: l)
        else keptSkillFiles fs sel
      | none => keptSkillFiles fs sel

/-- Lines 210-213: the synthetic diagnostic record. -/
def reportRecord (selected : List String) : JRecord :=
  JRecord.obj "zesty-dispatcher-report.md"
    (some ("\n\n[Zesty Dispatcher] Active Skills (Threshold 60): " ++
      intercalateS ", " selected ++ ".\n"))

/-- One invocation of the `agent:bootstrap` hook: configuration, the two
oracles, the conversation history and the caller-owned record list. -/
structure HookArgs where
  cfgExemptions : Option (List String)
  llm : LlmOracle
  fsO : FsOracle
  sessionEntry : List Turn
  bootstrapFiles : List JRecord

/-- The Selector output the hook computes (line 195). -/
def hookSelected (a : HookArgs) : List String :=
  (selectRelevantSkills a.cfgExemptions a.llm a.fsO (extractQuery a.sessionEntry)
    (scanFiles a.bootstrapFiles).1).selected

/-- Lines 166-214: the hook body up to (and including) computing the new list
contents.  `Except.ok none` is the early `return` when no query exists;
`Except.error` models an exception reaching the outer catch.  In the source
the caller-owned list is mutated only after this point, by `length = 0` plus
pushes, which cannot throw, so there is no partially-mutated outcome. -/
def hookBody (a : HookArgs) : Except Unit (Option (List JRecord)) :=
  if extractQuery a.sessionEntry = "" then Except.ok none
  else
    match keptSkillFiles a.bootstrapFiles (hookSelected a) with
    | Except.error e => Except.error e
    | Except.ok ks =>
      Except.ok (some ((scanFiles a.bootstrapFiles).2 ++ ks ++
        (if 0 < (hookSelected a).length then [reportRecord (hookSelected a)] else [])))

/-- Lines 165-218: the registered hook including the outer try/catch; the
result is the record list the host observes afterwards. -/
def runHook (a : HookArgs) : List JRecord :=
  match hookBody a with
  | Except.ok (some l) => l
  | _ => a.bootstrapFiles

def dedupFirst : List String → List String
  | [] => []
  | x :: xs => x :: (dedupFirst xs).filter (fun y => !(y == x))

/-- The distinct candidate names inferred from the skills path pattern across
all records — the candidate set claim C1 describes, and also exactly what the
source's unused `allSkillNames` (lines 189-193) computes. -/
def inferredNames (files : List JRecord) : List String :=
  dedupFirst (files.filterMap (fun f => skillNameOf (getPath1 f)))

/-- A record is skill-associated with a selected candidate. -/
def keepPred (sel : List String) (f : JRecord) : Bool :=
  match skillNameOf (getPath1 f) with
  | some n => sel.contains n
  | none => false

def isNonSkill (f : JRecord) : Bool := (skillNameOf (getPath1 f)).isNone

/-- The list contents claimed by C2: all non-skill records in original order,
then every skill-associated record whose candidate is selected in original
order, then the diagnostic record iff the selection is non-empty. -/
def claimedContents (a : HookArgs) : List JRecord :=
  a.bootstrapFiles.filter isNonSkill ++
    a.bootstrapFiles.filter (keepPred (hookSelected a)) ++
    (if 0 < (hookSelected a).length then [reportRecord (hookSelected a)] else [])

/-- A record on which line 199's `file.path || file` yields a string: a bare
string, or an object with a non-empty `path`. -/
def okRecord : JRecord → Bool
  | JRecord.str _ => true
  | JRecord.obj p _ => !(p == "")

/-- The three degraded outcomes of the semantic step for a given prompt: no
collaborator capability, the call throwing, or a reply with no parsable JSON
array. -/
def llmDegraded : LlmOracle → String → Prop
  | none, _ => True
  | some f, prompt =>
    match f prompt with
    | Except.error _ => True
    | Except.ok text =>
      match extractArray text with
      | none => True
      | some js => parseJsonStringArr js = none

/-- The claim-side decomposition reading of the whole-word regex test: the
literal pattern occurs (case-insensitively) as a segment with a word boundary
on each side. -/
def wholeWordOccurs (pat text : String) : Prop :=
  ∃ pre seg post, text.toList = pre ++ seg ++ post ∧
    lowerL seg = lowerL pat.toList ∧
    wordEnd pre ≠ wordStart (seg ++ post) ∧
    wordEnd (pre ++ seg) ≠ wordStart post

/-! ## Concrete inputs used by the witnesses and counterexamples -/

/-- File-system oracle on which every read fails (every such read is
silently swallowed by the source's try). -/
def noFs : FsOracle := fun _ => none

def c1files : List JRecord := [JRecord.str "/skills/foo/helper.py"]

def c1args : HookArgs :=
  ⟨none, none, noFs, [⟨"user", "use foo now"⟩], c1files⟩

def c2xArgs : HookArgs :=
  ⟨none, none, noFs, [⟨"user", "hello"⟩],
    [JRecord.obj "" none, JRecord.str "/skills/qmd/SKILL.md"]⟩

def c2wArgs : HookArgs :=
  ⟨none, none, noFs, [⟨"user", "hi"⟩],
    [JRecord.str "/notes.md", JRecord.str "/skills/qmd/SKILL.md"]⟩

def c3sf : List (String × String) := [("pdf", "/skills/pdf/SKILL.md")]

def c6sf : List (String × String) :=
  [("qmd", "/skills/qmd/SKILL.md"), ("pdf", "/skills/pdf/SKILL.md")]

def c7sf : List (String × String) := [("pdf", "/skills/pdf/SKILL.md")]

/-- A collaborator that replies with a name absent from every candidate set
used with it (a hallucinated name). -/
def c7llm : LlmOracle := some (fun _ => Except.ok "[\"made-up-skill\"]")

def c8args : HookArgs :=
  ⟨none, none, noFs, [⟨"assistant", "greetings"⟩], [JRecord.str "/skills/pdf/SKILL.md"]⟩

def c9sf : List (String × String) := [("pdf", "/skills/pdf/SKILL.md")]

/-- A collaborator whose reply contains no parsable JSON array. -/
def c9llm : LlmOracle := some (fun _ => Except.ok "no brackets in this reply")

def c10args : HookArgs :=
  ⟨none, none, noFs, [⟨"user", "hello"⟩],
    [JRecord.obj "" none, JRecord.str "/skills/qmd/SKILL.md"]⟩

/-! ## Helper lemmas -/

theorem selected_eq (cfgEx : Option (List String)) (llm : LlmOracle) (fsO : FsOracle)
    (query : String) (skillFiles : List (String × String)) :
    (selectRelevantSkills cfgEx llm fsO query skillFiles).selected =
      exemptionsOf cfgEx skillFiles ++
        ((scoredOf cfgEx llm fsO query skillFiles).filter
          (fun p => decide (60 ≤ p.2.score))).map Prod.fst := rfl

theorem scores_eq (cfgEx : Option (List String)) (llm : LlmOracle) (fsO : FsOracle)
    (query : String) (skillFiles : List (String × String)) :
    (selectRelevantSkills cfgEx llm fsO query skillFiles).scores =
      (exemptionsOf cfgEx skillFiles).map (fun s => (s, 999)) ++
        (scoredOf cfgEx llm fsO query skillFiles).map (fun p => (p.1, p.2.score)) := rfl

theorem breakdown_eq (cfgEx : Option (List String)) (llm : LlmOracle) (fsO : FsOracle)
    (query : String) (skillFiles : List (String × String)) :
    (selectRelevantSkills cfgEx llm fsO query skillFiles).breakdown =
      (exemptionsOf cfgEx skillFiles).map (fun s => (s, ["Exemption"])) ++
        (scoredOf cfgEx llm fsO query skillFiles).map (fun p => (p.1, p.2.reasons)) := rfl

theorem contains_iff {l : List String} {a : String} : l.contains a = true ↔ a ∈ l := by
  simp [List.contains, List.elem_iff]

theorem lookup_append_of_mem {β : Type} {l : List String} {rest : List (String × β)}
    {a : String} (v : β) (h : a ∈ l) :
    List.lookup a (l.map (fun s => (s, v)) ++ rest) = some v := by
  induction l with
  | nil => cases h
  | cons b bs ih =>
    by_cases hba : b = a
    · subst hba; simp [List.lookup]
    · have hmem : a ∈ bs := by
        cases List.mem_cons.mp h with
        | inl h1 => exact absurd h1.symm hba
        | inr h1 => exact h1
      have hbeq : (a == b) = false := beq_eq_false_iff_ne.mpr (fun he => hba he.symm)
      simpa [List.lookup, hbeq] using ih hmem

theorem scanGo_snd : ∀ (files : List JRecord) (acc : List (String × String) × List JRecord),
    (scanGo acc files).2 = acc.2 ++ files.filter isNonSkill
  | [], acc => by simp [scanGo]
  | f :: fs, acc => by
    have ih := scanGo_snd fs (scanStep acc f)
    rw [scanGo, ih]
    unfold scanStep
    cases hn : skillNameOf (getPath1 f) with
    | some n =>
      simp only [hn, List.filter_cons, isNonSkill, Option.isNone_some]
      cases endsWithS (getPath1 f) "SKILL.md" <;> simp
    | none => simp [hn, List.filter_cons, isNonSkill, List.append_assoc]

theorem scanFiles_snd (files : List JRecord) :
    (scanFiles files).2 = files.filter isNonSkill := by
  simpa [scanFiles] using scanGo_snd files ([], [])

theorem getPath2_ok {f : JRecord} (h : okRecord f = true) :
    getPath2 f = Except.ok (getPath1 f) := by
  cases f with
  | str s => rfl
  | obj p c =>
    have hp : ¬ p = "" := by simpa [okRecord] using h
    simp [getPath2, getPath1, hp]

theorem keptSkillFiles_ok : ∀ (sel : List String) (files : List JRecord),
    (∀ f ∈ files, okRecord f = true) →
    keptSkillFiles files sel = Except.ok (files.filter (keepPred sel))
  | _, [], _ => rfl
  | sel, f :: fs, h => by
    have hf := h f (List.mem_cons_self f fs)
    have hfs : ∀ g ∈ fs, okRecord g = true := fun g hg => h g (List.mem_cons_of_mem f hg)
    have ih := keptSkillFiles_ok sel fs hfs
    unfold keptSkillFiles
    rw [getPath2_ok hf]
    cases hn : skillNameOf (getPath1 f) with
    | none => simp [hn, ih, List.filter_cons, keepPred]
    | some n =>
      simp only [hn, ih, List.filter_cons, keepPred]
      by_cases hm : n ∈ sel <;> simp [hm, Except.map]

theorem wwAt_iff_decomp {p t : List Char} {i : Nat} (hi : i ≤ t.length) :
    wwAt p t i = true ↔
      ∃ pre seg post, t = pre ++ seg ++ post ∧ pre.length = i ∧ lowerL seg = p ∧
        wordEnd pre ≠ wordStart (seg ++ post) ∧ wordEnd (pre ++ seg) ≠ wordStart post := by
  unfold wwAt boundaryAt
  simp only [Bool.and_eq_true, decide_eq_true_eq, bne_iff_ne]
  constructor
  · rintro ⟨⟨hseg, hb1⟩, hb2⟩
    refine ⟨t.take i, (t.drop i).take p.length, (t.drop i).drop p.length, ?_, ?_, ?_, ?_, ?_⟩
    · rw [List.append_assoc, List.take_append_drop, List.take_append_drop]
    · rw [List.length_take]; exact Nat.min_eq_left hi
    · unfold lowerL
      rw [List.map_take, List.map_drop]
      exact hseg
    · rw [List.take_append_drop]
      exact hb1
    · rw [← List.take_add, List.drop_drop]
      exact hb2
  · rintro ⟨pre, seg, post, ht, hlen, hseg, hb1, hb2⟩
    have hsl : seg.length = p.length := by
      have hc := congrArg List.length hseg
      simpa [lowerL] using hc
    subst ht
    subst hlen
    refine ⟨⟨?_, ?_⟩, ?_⟩
    · unfold lowerL
      rw [List.map_append, List.map_append, List.append_assoc,
        List.drop_left' (by rw [List.length_map]),
        List.take_left' (by rw [List.length_map, hsl])]
      exact hseg
    · rw [List.append_assoc,
        List.take_left' rfl, List.drop_left' rfl]
      exact hb1
    · rw [List.take_left' (by rw [List.length_append, hsl]),
        List.drop_left' (by rw [List.length_append, hsl])]
      exact hb2

theorem wholeWordTest_iff {pat text : String} :
    wholeWordTest pat text = true ↔ wholeWordOccurs pat text := by
  unfold wholeWordTest wholeWordOccurs
  rw [List.any_eq_true]
  constructor
  · rintro ⟨i, hmem, hw⟩
    rw [List.mem_range] at hmem
    rcases (wwAt_iff_decomp (Nat.lt_succ_iff.mp hmem)).mp hw with
      ⟨pre, seg, post, ht, _, hseg, hb1, hb2⟩
    exact ⟨pre, seg, post, ht, hseg, hb1, hb2⟩
  · rintro ⟨pre, seg, post, ht, hseg, hb1, hb2⟩
    have hle : pre.length ≤ text.toList.length := by
      rw [ht]; simp [List.length_append]
    refine ⟨pre.length, ?_, ?_⟩
    · rw [List.mem_range, Nat.lt_succ_iff]; exact hle
    · exact (wwAt_iff_decomp hle).mpr ⟨pre, seg, post, ht, rfl, hseg, hb1, hb2⟩

/-! ## Claim theorems -/

/-- Claim C1, refuted by the code: the candidate set the hook hands to
`selectRelevantSkills` is the key set of `skillPaths`, which only receives
names whose `SKILL.md` descriptor record is present (line 180), not the
distinct names inferred from the skills path pattern across all records (the
set the claim describes, computed by the source's unused `allSkillNames`,
lines 189-193, and here by `inferredNames`).  For a skill `foo` whose only
record is `/skills/foo/helper.py`, the inferred name set is `["foo"]` but the
candidate set is empty, and the hook then drops the record entirely. -/
theorem claim1_candidate_set_omits_descriptorless_skills :
    inferredNames c1files = ["foo"] ∧
    candidatesOf (scanFiles c1files).1 = [] ∧
    runHook c1args = [] :=
  ⟨by decide, by decide, by decide⟩

/-- Claim C2 counterexample: on a list containing an object record with an
empty `path`, line 199's `file.path || file` yields the object and the
`.match` call throws, so the outer catch leaves the list byte-for-byte
unchanged — not the claimed rebuilt contents (which would end with the
diagnostic record, `qmd` being exempt and therefore selected). -/
theorem claim2_counterexample :
    runHook c2xArgs = c2xArgs.bootstrapFiles ∧ runHook c2xArgs ≠ claimedContents c2xArgs :=
  ⟨by decide, by decide⟩

/-- Claim C2 as amended: provided every object record has a non-empty `path`
(so the rebuild loop cannot throw), for every record list and non-empty
query the post-hook list is exactly the non-skill records in original order,
then every skill-associated record whose candidate is selected in original
order, then exactly one diagnostic record iff the selection is non-empty. -/
theorem claim2_amended_rebuild (a : HookArgs)
    (h1 : ∀ f ∈ a.bootstrapFiles, okRecord f = true)
    (h2 : ¬ extractQuery a.sessionEntry = "") :
    runHook a = claimedContents a := by
  simp only [runHook, hookBody, if_neg h2,
    keptSkillFiles_ok (hookSelected a) a.bootstrapFiles h1, claimedContents, scanFiles_snd]

/-- Concrete instantiation of the amended C2. -/
theorem claim2_amended_rebuild_witness :
    (∀ f ∈ c2wArgs.bootstrapFiles, okRecord f = true) ∧
    (¬ extractQuery c2wArgs.sessionEntry = "") ∧
    runHook c2wArgs = claimedContents c2wArgs :=
  ⟨by decide, by decide, claim2_amended_rebuild c2wArgs (by decide) (by decide)⟩

/-- Claim C3: a non-exempt candidate is selected iff its total score is at
least 60 (lines 150-153); in particular a score of 59 excludes and a score
of 60 includes. -/
theorem claim3_threshold_iff (cfgEx : Option (List String)) (llm : LlmOracle) (fsO : FsOracle)
    (query : String) (skillFiles : List (String × String)) (n : String)
    (h : n ∈ nonExemptOf cfgEx skillFiles) :
    n ∈ (selectRelevantSkills cfgEx llm fsO query skillFiles).selected ↔
      60 ≤ (scoreCandidate (llmRecommendedOf llm query (nonExemptOf cfgEx skillFiles)) fsO
              (lowerS query) skillFiles n).score := by
  have hnot : n ∉ exemptionsOf cfgEx skillFiles := by
    have h2 := (List.mem_filter.mp h).2
    intro hmem
    rw [contains_iff.mpr hmem] at h2
    simp at h2
  rw [selected_eq, List.mem_append]
  unfold scoredOf
  constructor
  · intro hsel
    rcases hsel with hx | hx
    · exact absurd hx hnot
    · rcases List.mem_map.mp hx with ⟨pe, hpf, hfst⟩
      rcases List.mem_filter.mp hpf with ⟨hms, hp⟩
      rcases List.mem_map.mp hms with ⟨m, _, hpair⟩
      rw [← hpair] at hfst hp
      simp only at hfst
      subst hfst
      exact of_decide_eq_true hp
  · intro hscore
    right
    refine List.mem_map.mpr
      ⟨(n, scoreCandidate (llmRecommendedOf llm query (nonExemptOf cfgEx skillFiles)) fsO
          (lowerS query) skillFiles n), ?_, rfl⟩
    exact List.mem_filter.mpr ⟨List.mem_map.mpr ⟨n, h, rfl⟩, decide_eq_true hscore⟩

/-- Concrete instantiation of C3: a name match alone scores exactly 60 and
is selected. -/
theorem claim3_threshold_iff_witness :
    "pdf" ∈ (selectRelevantSkills none none noFs "use the pdf tool" c3sf).selected :=
  (claim3_threshold_iff none none noFs "use the pdf tool" c3sf "pdf" (by decide)).mpr
    (by decide)

/-- Claim C4: the name-match signal contributes 60 exactly when the
candidate name occurs in the lower-cased query as a whole word
(word-boundary-delimited, case-insensitive); `"use the pdf tool"` matches
candidate `"pdf"`, while `"use the pdfgen tool"`, where `pdf` occurs only
inside a longer token, does not. -/
theorem claim4_whole_word_name_match :
    (∀ name q : String, nameContrib (lowerS q) name = 60 ↔ wholeWordOccurs name (lowerS q)) ∧
    nameContrib (lowerS "use the pdf tool") "pdf" = 60 ∧
    nameContrib (lowerS "use the pdfgen tool") "pdf" = 0 := by
  refine ⟨fun name q => ?_, by decide, by decide⟩
  unfold nameContrib
  by_cases hw : wholeWordTest name (lowerS q) = true
  · simp [hw, wholeWordTest_iff.mp hw]
  · have hno : ¬ wholeWordOccurs name (lowerS q) := fun hocc => hw (wholeWordTest_iff.mpr hocc)
    simp [hw, hno]

/-- Claim C5: the description keyword-density contribution is
`min(30, 10 × matched-token-count)` — in particular a description matching 5
query keywords contributes 30, not 50. -/
theorem claim5_desc_density_cap :
    (∀ q desc : String,
      descContrib (lowerS q) desc = min 30 (10 * (descKeywords (lowerS q) desc).length)) ∧
    descContrib (lowerS "scan parse render export archive")
      (lowerS "tools to scan parse render export archive files") = 30 := by
  constructor
  · intro q desc
    unfold descContrib
    cases hk : descKeywords (lowerS q) desc with
    | nil => simp [hk]
    | cons a l => simp [hk, Nat.mul_comm]
  · decide

/-- Claim C6: a candidate matching an exemption pattern is selected no
matter what the query, the collaborator or the file system contain, and its
breakdown is the sentinel score 999 with the single reason "Exemption"
(lines 74-81). -/
theorem claim6_exemption_sentinel (cfgEx : Option (List String)) (llm : LlmOracle)
    (fsO : FsOracle) (query : String) (skillFiles : List (String × String)) (n : String)
    (hc : n ∈ candidatesOf skillFiles)
    (he : isExempt n (cfgEx.getD defaultExemptions) = true) :
    n ∈ (selectRelevantSkills cfgEx llm fsO query skillFiles).selected ∧
    List.lookup n (selectRelevantSkills cfgEx llm fsO query skillFiles).scores = some 999 ∧
    List.lookup n (selectRelevantSkills cfgEx llm fsO query skillFiles).breakdown =
      some ["Exemption"] := by
  have hex : n ∈ exemptionsOf cfgEx skillFiles := List.mem_filter.mpr ⟨hc, he⟩
  refine ⟨?_, ?_, ?_⟩
  · rw [selected_eq]
    exact List.mem_append.mpr (Or.inl hex)
  · rw [scores_eq]
    exact lookup_append_of_mem 999 hex
  · rw [breakdown_eq]
    exact lookup_append_of_mem ["Exemption"] hex

/-- Concrete instantiation of C6: `qmd` matches the default exemption list
and is selected with the sentinel breakdown, under a query with no relation
to it. -/
theorem claim6_exemption_sentinel_witness :
    "qmd" ∈ (selectRelevantSkills none none noFs "render a chart" c6sf).selected ∧
    List.lookup "qmd" (selectRelevantSkills none none noFs "render a chart" c6sf).scores =
      some 999 ∧
    List.lookup "qmd" (selectRelevantSkills none none noFs "render a chart" c6sf).breakdown =
      some ["Exemption"] :=
  claim6_exemption_sentinel none none noFs "render a chart" c6sf "qmd" (by decide) (by decide)

/-- Claim C7: every name in the Selector's `selected` output is a name from
the input candidate set, whatever the collaborator replied — a hallucinated
name can therefore never appear in `selected`. -/
theorem claim7_selected_subset_candidates (cfgEx : Option (List String)) (llm : LlmOracle)
    (fsO : FsOracle) (query : String) (skillFiles : List (String × String)) (n : String)
    (h : n ∈ (selectRelevantSkills cfgEx llm fsO query skillFiles).selected) :
    n ∈ candidatesOf skillFiles := by
  rw [selected_eq] at h
  rcases List.mem_append.mp h with hx | hx
  · exact (List.mem_filter.mp hx).1
  · rcases List.mem_map.mp hx with ⟨pe, hpf, hfst⟩
    have hms := (List.mem_filter.mp hpf).1
    unfold scoredOf at hms
    rcases List.mem_map.mp hms with ⟨m, hm, hpair⟩
    rw [← hpair] at hfst
    simp only at hfst
    subst hfst
    exact (List.mem_filter.mp hm).1

/-- Concrete instantiation of C7: under a collaborator replying with the
hallucinated name `made-up-skill`, the selected name `pdf` comes from the
candidate set. -/
theorem claim7_selected_subset_candidates_witness :
    "pdf" ∈ candidatesOf c7sf :=
  claim7_selected_subset_candidates none c7llm noFs "use the pdf tool" c7sf "pdf" (by decide)

/-- Claim C8: when the history has no user turn, or the most recent user
turn has empty content, the hook returns before touching the list (lines
168-170), leaving it unchanged. -/
theorem claim8_no_query_noop (a : HookArgs)
    (h : (∀ t ∈ a.sessionEntry, ¬ t.role = "user") ∨
         (∃ t, a.sessionEntry.reverse.find? (fun m => m.role == "user") = some t ∧
           t.content = "")) :
    runHook a = a.bootstrapFiles := by
  have hq : extractQuery a.sessionEntry = "" := by
    unfold extractQuery
    rcases h with h | ⟨t, ht, hc⟩
    · have hn : a.sessionEntry.reverse.find? (fun m => m.role == "user") = none := by
        rw [List.find?_eq_none]
        intro x hx hbeq
        exact h x (List.mem_reverse.mp hx) (by simpa using hbeq)
      rw [hn]
    · rw [ht]
      exact hc
  simp [runHook, hookBody, hq]

/-- Concrete instantiation of C8: an assistant-only history leaves the list
untouched. -/
theorem claim8_no_query_noop_witness :
    runHook c8args = c8args.bootstrapFiles :=
  claim8_no_query_noop c8args (Or.inl (by decide))

/-- Claim C9: whenever the collaborator is absent, its call raises, or its
reply contains no parsable JSON array, the semantic recommendation set is
empty and the whole selection result is the same as with no collaborator at
all — the failure never aborts the ranking. -/
theorem claim9_semantic_degrade (cfgEx : Option (List String)) (llm : LlmOracle)
    (fsO : FsOracle) (query : String) (skillFiles : List (String × String))
    (h : llmDegraded llm (mkPrompt query (nonExemptOf cfgEx skillFiles))) :
    llmRecommendedOf llm query (nonExemptOf cfgEx skillFiles) = [] ∧
    selectRelevantSkills cfgEx llm fsO query skillFiles =
      selectRelevantSkills cfgEx none fsO query skillFiles := by
  have h0 : ∀ l : LlmOracle, llmDegraded l (mkPrompt query (nonExemptOf cfgEx skillFiles)) →
      llmRecommendedOf l query (nonExemptOf cfgEx skillFiles) = [] := by
    intro l hl
    unfold llmRecommendedOf
    by_cases hne : (nonExemptOf cfgEx skillFiles).isEmpty
    · simp [hne]
    · rw [if_neg hne]
      cases l with
      | none => rfl
      | some f =>
        unfold llmDegraded at hl
        cases hfp : f (mkPrompt query (nonExemptOf cfgEx skillFiles)) with
        | error e => simp [hfp]
        | ok text =>
          simp only [hfp] at hl
          cases hx : extractArray text with
          | none => simp [hfp, hx]
          | some js =>
            simp only [hx] at hl
            simp [hfp, hx, hl]
  refine ⟨h0 llm h, ?_⟩
  unfold selectRelevantSkills scoredOf
  simp only [h0 llm h, h0 none trivial]

/-- Concrete instantiation of C9: a reply with no JSON array degrades to the
no-collaborator outcome. -/
theorem claim9_semantic_degrade_witness :
    llmRecommendedOf c9llm "use the pdf tool" (nonExemptOf none c9sf) = [] ∧
    selectRelevantSkills none c9llm noFs "use the pdf tool" c9sf =
      selectRelevantSkills none none noFs "use the pdf tool" c9sf :=
  claim9_semantic_degrade none c9llm noFs "use the pdf tool" c9sf (by trivial)

/-- Claim C10: whenever the hook body raises (modelled by `Except.error`
reaching the outer catch of lines 165-218), the caller's record list is left
exactly as it was — in the source the list is mutated only after every
throwing operation, by `length = 0` plus pushes, so no partial rewrite can
be observed. -/
theorem claim10_exception_containment (a : HookArgs)
    (h : hookBody a = Except.error ()) :
    runHook a = a.bootstrapFiles := by
  simp [runHook, h]

/-- Concrete instantiation of C10: an object record with an empty `path`
makes the rebuild loop throw, and the list is returned unchanged. -/
theorem claim10_exception_containment_witness :
    hookBody c10args = Except.error () ∧ runHook c10args = c10args.bootstrapFiles :=
  ⟨rfl, claim10_exception_containment c10args rfl⟩

end ZestyDispatcher
